import Mathlib

/-!
Shallow embedding of src/main.c of console-vmm, a demand-paging virtual
memory manager that translates logical addresses to physical addresses.

The C program keeps its run state in three heap structs (PageTable,
PhysicalMemory, plus the output records); here they are flattened into one
state record MMState whose fields keep the source field names.  Machine
integers are modelled as Nat (the input contract makes every address
non-negative); the one place the C width matters is the field
next_available_frame_index, declared unsigned char in the source (main.c
line 62), whose increment therefore wraps modulo 256.  Bytes (signed char)
are modelled as Int values carried through unchanged.  The backing store
is a parameter bs : Nat -> Nat -> Int giving the byte at each offset of
each page; the initial (garbage) contents of physical memory is a
parameter mem0 : Nat -> Int.  File output is modelled as the list of
printed lines, with the page-fault-rate line carrying the two integer
operands of the floating point division performed at main.c line 216.
-/

/-- FRAME_SIZE, main.c line 13. -/
abbrev FRAME_SIZE : Nat := 256

/-- FRAME_NUMBER_OFFSET_BITS, main.c line 14. -/
abbrev FRAME_NUMBER_OFFSET_BITS : Nat := 8

/-- PAGE_NUMBER_OFFSET_BITS, main.c line 15. -/
abbrev PAGE_NUMBER_OFFSET_BITS : Nat := 8

/-- PAGE_OFFSET_MASK, main.c line 16. -/
abbrev PAGE_OFFSET_MASK : Nat := 255

/-- PAGE_TABLE_SIZE, main.c line 17. -/
abbrev PAGE_TABLE_SIZE : Nat := 256

/-- PAGE_SIZE, main.c line 18. -/
abbrev PAGE_SIZE : Nat := 256

/-- PHYSICAL_MEMORY_SIZE, main.c line 19. -/
abbrev PHYSICAL_MEMORY_SIZE : Nat := PAGE_TABLE_SIZE * PAGE_SIZE

/-- Struct VirtualAddress, main.c lines 25-29.  The address and the two
fields derived from it at main.c lines 251-255.  Addresses are
non-negative by the input contract, so the int fields are modelled as
Nat. -/
structure VirtualAddress where
  address : Nat
  page_number : Nat
  page_offset : Nat
deriving DecidableEq, Repr

/-- Decoding of a raw address into a VirtualAddress, main.c lines 251-255:
page_number is the address shifted right by PAGE_NUMBER_OFFSET_BITS and
page_offset is the address masked with PAGE_OFFSET_MASK. -/
def decodeVA (raw : Nat) : VirtualAddress :=
  { address := raw
    page_number := raw >>> PAGE_NUMBER_OFFSET_BITS
    page_offset := raw &&& PAGE_OFFSET_MASK }

/-- One translation as printed at main.c line 211 (virtualAddr,
physicalAddr, value), together with the quantities of the iteration that
produced it (page, offset, frame, and whether the iteration took the
page-fault branch), recorded so that properties of the run can be stated
per emitted record. -/
structure TranslationRecord where
  virtualAddr : Nat
  physicalAddr : Nat
  value : Int
  page : Nat
  offset : Nat
  frame : Nat
  fault : Bool
deriving DecidableEq, Repr

/-- The mutable run state of map_addresses, flattening the structs
PageTable (main.c lines 73-76) and PhysicalMemory (main.c lines 59-64).
map is the page table array (PAGE_TABLE_SIZE ints, the UNMAPPED sentinel
-1 modelled as none); next_available_frame_index is the unsigned char
counter of line 62; space is the physical memory byte array; records is
the sequence of translation lines written to the output file; accesses
records every index used to read or write space (for stating bounds
properties). -/
structure MMState where
  map : Nat → Option Nat
  fault_count : Nat
  next_available_frame_index : Nat
  space : Nat → Int
  address_count : Nat
  records : List TranslationRecord
  accesses : List Nat

/-- The initial state built by create_physical_memory (main.c lines
279-286: next_available_frame_index = 0, address_count = 0, space
uninitialized, modelled by the parameter mem0) and create_page_table
(main.c lines 294-302: every page-table entry UNMAPPED, fault_count = 0). -/
def initState (mem0 : Nat → Int) : MMState :=
  { map := fun _ => none
    fault_count := 0
    next_available_frame_index := 0
    space := mem0
    address_count := 0
    records := []
    accesses := [] }

/-- Physical address construction, main.c line 200: the frame number
shifted left by FRAME_NUMBER_OFFSET_BITS, bitwise-or the frame offset. -/
def physicalAddressOf (frame_number frame_offset : Nat) : Nat :=
  (frame_number <<< FRAME_NUMBER_OFFSET_BITS) ||| frame_offset

/-- The frame allocation of main.c lines 170-173: return the current
next_available_frame_index and increment it.  The field is an unsigned
char (main.c line 62), so the increment wraps modulo 256. -/
def allocate (st : MMState) : Nat × MMState :=
  (st.next_available_frame_index,
   { st with next_available_frame_index := (st.next_available_frame_index + 1) % 256 })

/-- The page load of main.c lines 176-182: the PAGE_SIZE bytes of page
page of the backing store are copied into physical memory at indices
frame * FRAME_SIZE + i for i < PAGE_SIZE; all other bytes keep their
previous value. -/
def loadPage (bs : Nat → Nat → Int) (space : Nat → Int) (page frame : Nat) : Nat → Int :=
  fun j =>
    if frame * FRAME_SIZE ≤ j ∧ j < frame * FRAME_SIZE + PAGE_SIZE then
      bs page (j - frame * FRAME_SIZE)
    else space j

/-- The translation record produced by one iteration of the loop of
map_addresses (main.c lines 151-211) run from state st on address va:
a hit uses the mapped frame and reads the byte at
page_offset + frame * PAGE_SIZE (line 204); a fault allocates the next
frame, loads the page, and reads the same index from the updated memory. -/
def stepRecord (bs : Nat → Nat → Int) (st : MMState) (va : VirtualAddress) : TranslationRecord :=
  match st.map va.page_number with
  | some pa_frame_number =>
      { virtualAddr := va.address
        physicalAddr := physicalAddressOf pa_frame_number va.page_offset
        value := st.space (va.page_offset + pa_frame_number * PAGE_SIZE)
        page := va.page_number
        offset := va.page_offset
        frame := pa_frame_number
        fault := false }
  | none =>
      { virtualAddr := va.address
        physicalAddr := physicalAddressOf (allocate st).1 va.page_offset
        value := loadPage bs st.space va.page_number (allocate st).1
                   (va.page_offset + (allocate st).1 * PAGE_SIZE)
        page := va.page_number
        offset := va.page_offset
        frame := (allocate st).1
        fault := true }

/-- One iteration of the loop of map_addresses, main.c lines 151-211.
On a hit the page table, fault counter, frame counter and memory are
unchanged; on a fault (UNMAPPED entry) the fault counter is incremented
(line 167), the next frame is allocated (lines 170-173), the page is
loaded from the backing store into that frame (lines 176-182) and the
mapping installed (line 186).  Either way a translation record is
appended (line 211) and address_count incremented (line 208); accesses
collects the physical-memory indices written (line 181) and read
(line 204). -/
def step (bs : Nat → Nat → Int) (st : MMState) (va : VirtualAddress) : MMState :=
  match st.map va.page_number with
  | some pa_frame_number =>
      { st with
        address_count := st.address_count + 1
        accesses := st.accesses ++ [va.page_offset + pa_frame_number * PAGE_SIZE]
        records := st.records ++ [stepRecord bs st va] }
  | none =>
      { st with
        fault_count := st.fault_count + 1
        next_available_frame_index := (allocate st).2.next_available_frame_index
        map := fun p => if p = va.page_number then some (allocate st).1 else st.map p
        space := loadPage bs st.space va.page_number (allocate st).1
        address_count := st.address_count + 1
        accesses := st.accesses
          ++ (List.range PAGE_SIZE).map (fun i => (allocate st).1 * FRAME_SIZE + i)
          ++ [va.page_offset + (allocate st).1 * PAGE_SIZE]
        records := st.records ++ [stepRecord bs st va] }

/-- The loop of map_addresses over the whole address list, main.c
line 151. -/
def runFrom (bs : Nat → Nat → Int) : MMState → List VirtualAddress → MMState
  | st, [] => st
  | st, va :: rest => runFrom bs (step bs st va) rest

/-- map_addresses, main.c lines 142-218, as a state transformer: run the
translation loop on the address list from the freshly created state. -/
def map_addresses (bs : Nat → Nat → Int) (mem0 : Nat → Int)
    (addrs : List VirtualAddress) : MMState :=
  runFrom bs (initState mem0) addrs

/-- The records produced by the loop iterations, in order, run from an
arbitrary state (st.records is a prefix of the final record list; this
function gives the suffix the loop itself appends). -/
def stepsRecords (bs : Nat → Nat → Int) : MMState → List VirtualAddress → List TranslationRecord
  | _, [] => []
  | st, va :: rest => stepRecord bs st va :: stepsRecords bs (step bs st va) rest

/-- One line of the output file output.txt.  translation is a line of
main.c line 211; pageFaults the line of main.c line 215; pageFaultRate
the line of main.c line 216, carrying the two integer operands
fault_count and address_count of the floating point division performed
there (the C expression casts them to float and divides). -/
inductive OutputLine where
  | translation (t : TranslationRecord)
  | pageFaults (n : Nat)
  | pageFaultRate (num den : Nat)
deriving DecidableEq, Repr

/-- The full contents of output.txt for one run of map_addresses, main.c
lines 211 and 214-216: one translation line per processed address, then
the fault count line, then the fault rate line. -/
def programOutput (bs : Nat → Nat → Int) (mem0 : Nat → Int)
    (addrs : List VirtualAddress) : List OutputLine :=
  let st := map_addresses bs mem0 addrs
  (st.records.map OutputLine.translation)
    ++ [OutputLine.pageFaults st.fault_count,
        OutputLine.pageFaultRate st.fault_count addrs.length]

/-- The digit-consuming loop of the C standard library atoi: accumulate
decimal digits from the front of the list, stopping at the first
non-digit. -/
def atoiDigits : List Char → Nat → Nat
  | [], acc => acc
  | c :: cs, acc => if c.isDigit then atoiDigits cs (acc * 10 + (c.toNat - 48)) else acc

/-- The characters treated as whitespace by the C standard library
isspace, skipped by atoi before the number. -/
def isSpaceChar (c : Char) : Bool :=
  c = ' ' || c = '\t' || c = '\n' || c = '\x0b' || c = '\x0c' || c = '\r'

/-- The C standard library atoi as called at main.c line 251: skip
leading whitespace, consume an optional sign, then leading decimal
digits (zero digits give 0).  Overflow is undefined in C and not
modelled. -/
def atoi (s : List Char) : Int :=
  match s.dropWhile isSpaceChar with
  | '-' :: rest => - (atoiDigits rest 0 : Int)
  | '+' :: rest => (atoiDigits rest 0 : Int)
  | s1 => (atoiDigits s1 0 : Int)

/-- The character loop of create_virtual_memory, main.c lines 238-269:
characters other than newline are appended to the line buffer; a newline
converts the buffered line with atoi and emits it, resetting the buffer.
Characters buffered when the input ends are discarded (no address is
created at EOF, only at a newline). -/
def parseLines : List Char → List Char → List Int
  | _, [] => []
  | buf, c :: cs =>
    if c = '\n' then atoi buf :: parseLines [] cs
    else parseLines (buf ++ [c]) cs

/-- create_virtual_memory, main.c lines 226-272: parse the input into one
integer per newline-terminated line and decode each into a
VirtualAddress (lines 251-255).  Inputs are non-negative decimal lines
per the input contract, so the atoi result is cast through toNat. -/
def create_virtual_memory (input : List Char) : List VirtualAddress :=
  (parseLines [] input).map (fun a => decodeVA a.toNat)

/-- The frames returned by k successive allocations from state st,
iterating the allocation of main.c lines 170-173. -/
def allocFrames : Nat → MMState → List Nat
  | 0, _ => []
  | k + 1, st => (allocate st).1 :: allocFrames k (allocate st).2

/-! ### The run invariant -/

/-- Invariant of every state reachable by the translation loop when all
processed page numbers are below PAGE_TABLE_SIZE: the fault count never
exceeds 256; the 8-bit frame counter equals the fault count modulo 256;
every installed mapping has a valid page number and a frame below the
fault count; the number of mapped pages equals the fault count; and every
mapped frame holds exactly the bytes of its page of the backing store. -/
def RunInv (bs : Nat → Nat → Int) (st : MMState) : Prop :=
  st.fault_count ≤ 256
  ∧ st.next_available_frame_index = st.fault_count % 256
  ∧ (∀ p f, st.map p = some f → p < 256 ∧ f < st.fault_count)
  ∧ ((Finset.range 256).filter (fun q => (st.map q).isSome = true)).card = st.fault_count
  ∧ (∀ p f, st.map p = some f → ∀ i, i < 256 → st.space (f * 256 + i) = bs p i)

/-! ### Arithmetic helpers for the address codec -/

/-- Bitwise-or of a byte into an 8-bit-shifted value is addition. -/
theorem shiftLeft_lor_eq_add (a b : Nat) (h : b < 256) : (a <<< 8) ||| b = a * 256 + b := by
  have h256 : a * 256 + b = 2 ^ 8 * a + b := by ring_nf
  rw [h256]
  apply Nat.eq_of_testBit_eq
  intro i
  rw [Nat.testBit_lor, Nat.testBit_shiftLeft]
  rw [Nat.testBit_mul_pow_two_add a (show b < 2 ^ 8 by omega) i]
  rcases Nat.lt_or_ge i 8 with hi | hi
  · simp [Nat.not_le.mpr hi, hi]
  · have hb : b < 2 ^ i := lt_of_lt_of_le h (by
      calc (256 : Nat) = 2 ^ 8 := by norm_num
      _ ≤ 2 ^ i := Nat.pow_le_pow_right (by norm_num) hi)
    simp [hi, Nat.not_lt.mpr hi, Nat.testBit_lt_two_pow hb]

/-- Masking with 255 is reduction modulo 256. -/
theorem and_255_eq_mod (raw : Nat) : raw &&& 255 = raw % 256 := by
  have h := Nat.and_pow_two_sub_one_eq_mod raw 8
  norm_num at h
  exact h

/-- Shifting right by 8 is division by 256. -/
theorem shiftRight_8_eq_div (raw : Nat) : raw >>> 8 = raw / 256 := by
  rw [Nat.shiftRight_eq_div_pow]

/-- The decoded page offset is the raw address modulo 256. -/
theorem decodeVA_page_offset (raw : Nat) : (decodeVA raw).page_offset = raw % 256 :=
  and_255_eq_mod raw

/-- The decoded page number is the raw address divided by 256. -/
theorem decodeVA_page_number (raw : Nat) : (decodeVA raw).page_number = raw / 256 :=
  shiftRight_8_eq_div raw

/-- The decoded page offset is below PAGE_SIZE. -/
theorem decodeVA_page_offset_lt (raw : Nat) : (decodeVA raw).page_offset < 256 := by
  rw [decodeVA_page_offset]; omega

/-- For a raw address below 65536 the decoded page number is below
PAGE_TABLE_SIZE. -/
theorem decodeVA_page_number_lt (raw : Nat) (h : raw < 65536) :
    (decodeVA raw).page_number < 256 := by
  rw [decodeVA_page_number]; omega

/-! ### One-step lemmas about the translation loop -/

/-- Each iteration appends exactly its own record. -/
theorem step_records (bs : Nat → Nat → Int) (st : MMState) (va : VirtualAddress) :
    (step bs st va).records = st.records ++ [stepRecord bs st va] := by
  cases h : st.map va.page_number with
  | some f => simp [step, h]
  | none => simp [step, h]

/-- A mapped page-table entry is never changed by an iteration. -/
theorem step_map_stable (bs : Nat → Nat → Int) (st : MMState) (va : VirtualAddress)
    (p f : Nat) (hp : st.map p = some f) : (step bs st va).map p = some f := by
  cases h : st.map va.page_number with
  | some g => simpa [step, h] using hp
  | none =>
    simp only [step, h]
    by_cases hpv : p = va.page_number
    · rw [hpv] at hp; rw [hp] at h; cases h
    · simpa [hpv] using hp

/-- After an iteration the processed page is mapped to the frame of the
record just emitted. -/
theorem step_map_lookup (bs : Nat → Nat → Int) (st : MMState) (va : VirtualAddress) :
    (step bs st va).map va.page_number = some ((stepRecord bs st va).frame) := by
  cases h : st.map va.page_number with
  | some f => simp [step, stepRecord, h]
  | none => simp [step, stepRecord, h]

/-- An iteration on a different page leaves an unmapped entry unmapped. -/
theorem step_map_none (bs : Nat → Nat → Int) (st : MMState) (va : VirtualAddress)
    (p : Nat) (hp : st.map p = none) (hne : va.page_number ≠ p) :
    (step bs st va).map p = none := by
  cases h : st.map va.page_number with
  | some f => simpa [step, h] using hp
  | none =>
    simp only [step, h]
    rw [if_neg (fun hpv => hne hpv.symm)]
    exact hp

/-- The record of an iteration carries the page number of its address. -/
theorem stepRecord_page (bs : Nat → Nat → Int) (st : MMState) (va : VirtualAddress) :
    (stepRecord bs st va).page = va.page_number := by
  cases h : st.map va.page_number with
  | some f => simp [stepRecord, h]
  | none => simp [stepRecord, h]

/-- The record of an iteration carries the page offset of its address. -/
theorem stepRecord_offset (bs : Nat → Nat → Int) (st : MMState) (va : VirtualAddress) :
    (stepRecord bs st va).offset = va.page_offset := by
  cases h : st.map va.page_number with
  | some f => simp [stepRecord, h]
  | none => simp [stepRecord, h]

/-- On a hit (page already mapped) the record reports no fault, the mapped
frame, and the byte read from physical memory at the frame's offset. -/
theorem stepRecord_hit (bs : Nat → Nat → Int) (st : MMState) (va : VirtualAddress)
    (f : Nat) (h : st.map va.page_number = some f) :
    (stepRecord bs st va).fault = false ∧ (stepRecord bs st va).frame = f ∧
    (stepRecord bs st va).value = st.space (va.page_offset + f * PAGE_SIZE) := by
  simp [stepRecord, h]

/-- On a fault the record reports a fault and the freshly allocated frame,
and the byte is read from the freshly loaded page. -/
theorem stepRecord_fault (bs : Nat → Nat → Int) (st : MMState) (va : VirtualAddress)
    (h : st.map va.page_number = none) :
    (stepRecord bs st va).fault = true ∧
    (stepRecord bs st va).frame = st.next_available_frame_index ∧
    (stepRecord bs st va).value =
      loadPage bs st.space va.page_number st.next_available_frame_index
        (va.page_offset + st.next_available_frame_index * PAGE_SIZE) := by
  simp [stepRecord, h, allocate]

/-- The fault counter after an iteration: unchanged on a hit, incremented
on a fault. -/
theorem step_fault_count (bs : Nat → Nat → Int) (st : MMState) (va : VirtualAddress) :
    (step bs st va).fault_count =
      (if (st.map va.page_number).isSome then st.fault_count else st.fault_count + 1) := by
  cases h : st.map va.page_number with
  | some f => simp [step, h]
  | none => simp [step, h]

/-! ### Lemmas about whole runs of the translation loop -/

/-- Running the loop on an appended list runs it on each part in turn. -/
theorem runFrom_append (bs : Nat → Nat → Int) (l₁ l₂ : List VirtualAddress) :
    ∀ st : MMState, runFrom bs st (l₁ ++ l₂) = runFrom bs (runFrom bs st l₁) l₂ := by
  induction l₁ with
  | nil => intro st; rfl
  | cons a rest ih => intro st; simp only [List.cons_append, runFrom]; exact ih (step bs st a)

/-- A mapped page-table entry survives any number of further iterations
with the same frame. -/
theorem runFrom_map_stable (bs : Nat → Nat → Int) (l : List VirtualAddress) :
    ∀ st : MMState, ∀ p f : Nat, st.map p = some f → (runFrom bs st l).map p = some f := by
  induction l with
  | nil => intro st p f hp; exact hp
  | cons a rest ih =>
    intro st p f hp
    exact ih (step bs st a) p f (step_map_stable bs st a p f hp)

/-- An entry stays unmapped as long as no processed address references its
page. -/
theorem runFrom_map_none (bs : Nat → Nat → Int) (l : List VirtualAddress) :
    ∀ st : MMState, ∀ p : Nat, st.map p = none → (∀ va ∈ l, va.page_number ≠ p) →
      (runFrom bs st l).map p = none := by
  induction l with
  | nil => intro st p hp _; exact hp
  | cons a rest ih =>
    intro st p hp hl
    exact ih (step bs st a) p
      (step_map_none bs st a p hp (hl a (List.mem_cons_self a rest)))
      (fun va hva => hl va (List.mem_cons_of_mem a hva))

/-- The records after a run are the records before it followed by the
records of its iterations. -/
theorem runFrom_records (bs : Nat → Nat → Int) (l : List VirtualAddress) :
    ∀ st : MMState, (runFrom bs st l).records = st.records ++ stepsRecords bs st l := by
  induction l with
  | nil => intro st; simp [runFrom, stepsRecords]
  | cons a rest ih =>
    intro st
    simp only [runFrom, stepsRecords]
    rw [ih (step bs st a), step_records]
    simp

/-- A run produces one record per processed address. -/
theorem stepsRecords_length (bs : Nat → Nat → Int) (l : List VirtualAddress) :
    ∀ st : MMState, (stepsRecords bs st l).length = l.length := by
  induction l with
  | nil => intro st; rfl
  | cons a rest ih => intro st; simp [stepsRecords, ih (step bs st a)]

/-- The i-th record of a run is the record of one iteration run from the
state reached after the first i addresses. -/
theorem stepsRecords_getElem? (bs : Nat → Nat → Int) (l : List VirtualAddress) :
    ∀ st : MMState, ∀ i : Nat,
      (stepsRecords bs st l)[i]? =
        (l[i]?).map (stepRecord bs (runFrom bs st (l.take i))) := by
  induction l with
  | nil => intro st i; simp [stepsRecords]
  | cons a rest ih =>
    intro st i
    cases i with
    | zero => simp [stepsRecords, runFrom]
    | succ n =>
      simp only [stepsRecords, List.getElem?_cons_succ, List.take_succ_cons]
      rw [ih (step bs st a) n]
      rfl

/-- The i-th record of a full run of map_addresses. -/
theorem map_addresses_records_getElem? (bs : Nat → Nat → Int) (mem0 : Nat → Int)
    (l : List VirtualAddress) (i : Nat) :
    (map_addresses bs mem0 l).records[i]? =
      (l[i]?).map (stepRecord bs (map_addresses bs mem0 (l.take i))) := by
  unfold map_addresses
  rw [runFrom_records]
  simp [initState, stepsRecords_getElem?]

/-- Splitting a longer prefix run at a shorter one. -/
theorem runFrom_take_le (bs : Nat → Nat → Int) (st : MMState) (l : List VirtualAddress)
    (m n : Nat) (h : m ≤ n) :
    runFrom bs st (l.take n) = runFrom bs (runFrom bs st (l.take m)) ((l.take n).drop m) := by
  have hsplit : l.take n = (l.take n).take m ++ (l.take n).drop m := (List.take_append_drop m (l.take n)).symm
  have htt : (l.take n).take m = l.take m := by
    rw [List.take_take, Nat.min_eq_left h]
  calc runFrom bs st (l.take n)
      = runFrom bs st ((l.take n).take m ++ (l.take n).drop m) := by rw [← hsplit]
    _ = runFrom bs (runFrom bs st ((l.take n).take m)) ((l.take n).drop m) := runFrom_append bs _ _ st
    _ = runFrom bs (runFrom bs st (l.take m)) ((l.take n).drop m) := by rw [htt]

/-- The fault counter never decreases along a run. -/
theorem fault_count_mono (bs : Nat → Nat → Int) (l : List VirtualAddress) :
    ∀ st : MMState, st.fault_count ≤ (runFrom bs st l).fault_count := by
  induction l with
  | nil => intro st; exact Nat.le_refl _
  | cons a rest ih =>
    intro st
    refine Nat.le_trans ?_ (ih (step bs st a))
    rw [step_fault_count]
    cases hsome : (st.map a.page_number).isSome
    · simp
    · simp

/-- The initial state satisfies the invariant. -/
theorem runInv_init (bs : Nat → Nat → Int) (mem0 : Nat → Int) : RunInv bs (initState mem0) := by
  refine ⟨by simp [initState], by simp [initState], ?_, ?_, ?_⟩
  · intro p f hp; simp [initState] at hp
  · simp [initState]
  · intro p f hp; simp [initState] at hp

/-- While an in-range page is unmapped, fewer than 256 faults have
occurred (all 256 pages would have to be mapped for the count to reach
256). -/
theorem fault_lt_of_unmapped (bs : Nat → Nat → Int) (st : MMState) (hInv : RunInv bs st)
    (p : Nat) (hp : p < 256) (hnone : st.map p = none) : st.fault_count < 256 := by
  rcases hInv with ⟨h1, _, _, h4, _⟩
  rcases Nat.lt_or_ge st.fault_count 256 with h | h
  · exact h
  have hfc : st.fault_count = 256 := Nat.le_antisymm h1 h
  have hsub : (Finset.range 256).filter (fun q => (st.map q).isSome = true) ⊆ Finset.range 256 :=
    Finset.filter_subset _ _
  have hcard : (Finset.range 256).card ≤
      ((Finset.range 256).filter (fun q => (st.map q).isSome = true)).card := by
    rw [h4, hfc, Finset.card_range]
  have heq := Finset.eq_of_subset_of_card_le hsub hcard
  have hpmem : p ∈ (Finset.range 256).filter (fun q => (st.map q).isSome = true) := by
    rw [heq]; exact Finset.mem_range.mpr hp
  rw [Finset.mem_filter, hnone] at hpmem
  simp at hpmem

/-- One iteration preserves the invariant when the processed page number
is in range. -/
theorem runInv_step (bs : Nat → Nat → Int) (st : MMState) (va : VirtualAddress)
    (hInv : RunInv bs st) (hva : va.page_number < 256) : RunInv bs (step bs st va) := by
  cases hm : st.map va.page_number with
  | some f =>
    rcases hInv with ⟨h1, h2, h3, h4, h5⟩
    refine ⟨?_, ?_, ?_, ?_, ?_⟩ <;> simp only [step, hm]
    · exact h1
    · exact h2
    · exact h3
    · exact h4
    · exact h5
  | none =>
    have hlt : st.fault_count < 256 := fault_lt_of_unmapped bs st hInv va.page_number hva hm
    rcases hInv with ⟨h1, h2, h3, h4, h5⟩
    have hnf : st.next_available_frame_index = st.fault_count := by
      rw [h2, Nat.mod_eq_of_lt hlt]
    refine ⟨?_, ?_, ?_, ?_, ?_⟩ <;> simp only [step, hm, allocate]
    · omega
    · rw [hnf]
    · intro p g hpg
      by_cases hpv : p = va.page_number
      · rw [if_pos hpv] at hpg
        have hg : g = st.next_available_frame_index := by
          cases hpg; rfl
        subst hpv
        exact ⟨hva, by omega⟩
      · rw [if_neg hpv] at hpg
        rcases h3 p g hpg with ⟨hplt, hglt⟩
        exact ⟨hplt, by omega⟩
    · have hins : (Finset.range 256).filter
            (fun q => ((fun p => if p = va.page_number then some st.next_available_frame_index
                        else st.map p) q).isSome = true)
          = insert va.page_number
              ((Finset.range 256).filter (fun q => (st.map q).isSome = true)) := by
        ext q
        rw [Finset.mem_insert, Finset.mem_filter, Finset.mem_filter]
        by_cases hq : q = va.page_number
        · subst hq
          simp [Finset.mem_range.mpr hva]
        · simp [hq]
      rw [hins, Finset.card_insert_of_not_mem, h4]
      rw [Finset.mem_filter, hm]
      simp
    · intro p g hpg i hi
      by_cases hpv : p = va.page_number
      · rw [if_pos hpv] at hpg
        have hg : g = st.next_available_frame_index := by cases hpg; rfl
        subst hpv hg
        unfold loadPage
        simp only [FRAME_SIZE, PAGE_SIZE]
        rw [if_pos (by constructor <;> omega)]
        congr 1
        omega
      · rw [if_neg hpv] at hpg
        rcases h3 p g hpg with ⟨hplt, hglt⟩
        unfold loadPage
        simp only [FRAME_SIZE, PAGE_SIZE]
        rw [if_neg (by rw [hnf]; omega)]
        exact h5 p g hpg i hi

/-- A whole run preserves the invariant when every processed page number
is in range. -/
theorem runInv_runFrom (bs : Nat → Nat → Int) (l : List VirtualAddress) :
    ∀ st : MMState, RunInv bs st → (∀ va ∈ l, va.page_number < 256) →
      RunInv bs (runFrom bs st l) := by
  induction l with
  | nil => intro st hInv _; exact hInv
  | cons a rest ih =>
    intro st hInv hl
    exact ih (step bs st a)
      (runInv_step bs st a hInv (hl a (List.mem_cons_self a rest)))
      (fun va hva => hl va (List.mem_cons_of_mem a hva))

/-! ### Derived run lemmas -/

/-- Extending a prefix run by one address steps the prefix state. -/
theorem runFrom_take_succ (bs : Nat → Nat → Int) (st : MMState) (l : List VirtualAddress)
    (i : Nat) (a : VirtualAddress) (ha : l[i]? = some a) :
    runFrom bs st (l.take (i + 1)) = step bs (runFrom bs st (l.take i)) a := by
  rw [List.take_succ, ha]
  rw [runFrom_append]
  rfl

/-- The frames of the fault records of a run, in order, are the
consecutive integers from the starting fault count to the final one. -/
theorem fault_frames_range' (bs : Nat → Nat → Int) (l : List VirtualAddress) :
    ∀ st : MMState, RunInv bs st → (∀ va ∈ l, va.page_number < 256) →
      ((stepsRecords bs st l).filter (fun r => r.fault)).map (fun r => r.frame)
        = List.range' st.fault_count ((runFrom bs st l).fault_count - st.fault_count) := by
  induction l with
  | nil => intro st _ _; simp [stepsRecords, runFrom]
  | cons a rest ih =>
    intro st hInv hl
    have ha : a.page_number < 256 := hl a (List.mem_cons_self a rest)
    have hrest : ∀ va ∈ rest, va.page_number < 256 :=
      fun va hva => hl va (List.mem_cons_of_mem a hva)
    have hInv' : RunInv bs (step bs st a) := runInv_step bs st a hInv ha
    have hrun : runFrom bs st (a :: rest) = runFrom bs (step bs st a) rest := rfl
    cases hm : st.map a.page_number with
    | some f =>
      have hrec : (stepRecord bs st a).fault = false := (stepRecord_hit bs st a f hm).1
      have hfc : (step bs st a).fault_count = st.fault_count := by
        rw [step_fault_count, hm]; rfl
      simp only [stepsRecords, List.filter_cons, hrec, Bool.false_eq_true, if_false]
      rw [hrun, ih (step bs st a) hInv' hrest, hfc]
    | none =>
      have hlt : st.fault_count < 256 := fault_lt_of_unmapped bs st hInv a.page_number ha hm
      have hnf : st.next_available_frame_index = st.fault_count := by
        rcases hInv with ⟨_, h2, _, _, _⟩
        rw [h2, Nat.mod_eq_of_lt hlt]
      have hrecf : (stepRecord bs st a).fault = true := (stepRecord_fault bs st a hm).1
      have hrecfr : (stepRecord bs st a).frame = st.fault_count := by
        rw [(stepRecord_fault bs st a hm).2.1, hnf]
      have hfc : (step bs st a).fault_count = st.fault_count + 1 := by
        rw [step_fault_count, hm]; rfl
      have hmono : st.fault_count + 1 ≤ (runFrom bs (step bs st a) rest).fault_count := by
        rw [← hfc]; exact fault_count_mono bs rest (step bs st a)
      simp only [stepsRecords, List.filter_cons, hrecf, eq_self_iff_true, if_true,
        List.map_cons, hrecfr]
      rw [hrun, ih (step bs st a) hInv' hrest, hfc]
      have hdiff : (runFrom bs (step bs st a) rest).fault_count - st.fault_count
          = ((runFrom bs (step bs st a) rest).fault_count - (st.fault_count + 1)) + 1 := by
        omega
      rw [hdiff, List.range'_succ]

/-- Every record of a valid run carries a frame below FRAME_SIZE and an
offset below PAGE_SIZE. -/
theorem stepsRecords_bounds (bs : Nat → Nat → Int) (l : List VirtualAddress) :
    ∀ st : MMState, RunInv bs st →
      (∀ va ∈ l, va.page_number < 256 ∧ va.page_offset < 256) →
      ∀ r ∈ stepsRecords bs st l, r.frame < 256 ∧ r.offset < 256 := by
  induction l with
  | nil => intro st _ _ r hr; simp [stepsRecords] at hr
  | cons a rest ih =>
    intro st hInv hl r hr
    have ha := hl a (List.mem_cons_self a rest)
    have hrest : ∀ va ∈ rest, va.page_number < 256 ∧ va.page_offset < 256 :=
      fun va hva => hl va (List.mem_cons_of_mem a hva)
    have hInv' : RunInv bs (step bs st a) := runInv_step bs st a hInv ha.1
    rcases List.mem_cons.mp hr with hr | hr
    · subst hr
      refine ⟨?_, by rw [stepRecord_offset]; exact ha.2⟩
      cases hm : st.map a.page_number with
      | some f =>
        rw [(stepRecord_hit bs st a f hm).2.1]
        rcases hInv with ⟨h1, _, h3, _, _⟩
        have := (h3 a.page_number f hm).2
        omega
      | none =>
        rw [(stepRecord_fault bs st a hm).2.1]
        rcases hInv with ⟨_, h2, _, _, _⟩
        rw [h2]
        exact Nat.mod_lt _ (by norm_num)
    · exact ih (step bs st a) hInv' hrest r hr

/-- Every physical-memory access of a valid run is either an access made
before the run or lies below 65536. -/
theorem runFrom_accesses_lt (bs : Nat → Nat → Int) (l : List VirtualAddress) :
    ∀ st : MMState, RunInv bs st →
      (∀ va ∈ l, va.page_number < 256 ∧ va.page_offset < 256) →
      ∀ a ∈ (runFrom bs st l).accesses, a ∈ st.accesses ∨ a < 65536 := by
  induction l with
  | nil => intro st _ _ a hmem; exact Or.inl hmem
  | cons va rest ih =>
    intro st hInv hl a hmem
    have hva := hl va (List.mem_cons_self va rest)
    have hrest : ∀ w ∈ rest, w.page_number < 256 ∧ w.page_offset < 256 :=
      fun w hw => hl w (List.mem_cons_of_mem va hw)
    have hInv' : RunInv bs (step bs st va) := runInv_step bs st va hInv hva.1
    rcases ih (step bs st va) hInv' hrest a hmem with hmem' | hlt
    · cases hm : st.map va.page_number with
      | some f =>
        rcases hInv with ⟨h1, _, h3, _, _⟩
        have hf := (h3 va.page_number f hm).2
        simp only [step, hm] at hmem'
        rcases List.mem_append.mp hmem' with h | h
        · exact Or.inl h
        · right
          rcases List.mem_singleton.mp h with rfl
          simp only [PAGE_SIZE]
          omega
      | none =>
        have hlt256 : st.fault_count < 256 :=
          fault_lt_of_unmapped bs st hInv va.page_number hva.1 hm
        rcases hInv with ⟨_, h2, _, _, _⟩
        have hnf : st.next_available_frame_index < 256 := by
          rw [h2]; exact Nat.mod_lt _ (by norm_num)
        simp only [step, hm, allocate] at hmem'
        rcases List.mem_append.mp hmem' with h | h
        · rcases List.mem_append.mp h with h' | h'
          · exact Or.inl h'
          · right
            rcases List.mem_map.mp h' with ⟨i, hi, rfl⟩
            have : i < 256 := List.mem_range.mp hi
            simp only [FRAME_SIZE]
            omega
        · right
          rcases List.mem_singleton.mp h with rfl
          simp only [PAGE_SIZE]
          omega
    · exact Or.inr hlt

/-- A page mapped after a run was either mapped before it or referenced
by one of its addresses. -/
theorem runFrom_mapped_mem (bs : Nat → Nat → Int) (l : List VirtualAddress) :
    ∀ st : MMState, ∀ p : Nat, (runFrom bs st l).map p ≠ none →
      st.map p ≠ none ∨ p ∈ l.map (fun va => va.page_number) := by
  induction l with
  | nil => intro st p h; exact Or.inl h
  | cons a rest ih =>
    intro st p h
    rcases ih (step bs st a) p h with h' | h'
    · by_cases hap : a.page_number = p
      · exact Or.inr (by rw [List.map_cons, hap]; exact List.mem_cons_self p _)
      · cases hsp : st.map p with
        | some f => exact Or.inl (by simp [hsp])
        | none => exact absurd (step_map_none bs st a p hsp hap) h'
    · exact Or.inr (by rw [List.map_cons]; exact List.mem_cons_of_mem _ h')

/-! ### Claim theorems -/

/-- C2: for every raw address value in [0, PAGE_TABLE_SIZE * PAGE_SIZE) =
[0, 65536), decoding it into page_number = raw >> 8 and page_offset =
raw & 255 (main.c lines 253-255) and then encoding a physical address from
frame_number = page_number and frame_offset = page_offset by
(frame_number << 8) | frame_offset (main.c line 200) reproduces the raw
value exactly. -/
theorem C2_decode_encode_roundtrip (raw : Nat) (h : raw < PAGE_TABLE_SIZE * PAGE_SIZE) :
    physicalAddressOf (decodeVA raw).page_number (decodeVA raw).page_offset = raw := by
  unfold physicalAddressOf
  simp only [FRAME_NUMBER_OFFSET_BITS]
  rw [decodeVA_page_number, decodeVA_page_offset]
  rw [shiftLeft_lor_eq_add _ _ (Nat.mod_lt _ (by norm_num))]
  omega

/-- Witness for C2 at raw address 12345. -/
theorem C2_decode_encode_roundtrip_witness :
    12345 < PAGE_TABLE_SIZE * PAGE_SIZE ∧
    physicalAddressOf (decodeVA 12345).page_number (decodeVA 12345).page_offset = 12345 :=
  ⟨by decide, C2_decode_encode_roundtrip 12345 (by decide)⟩

/-- C6 counterexample: on an empty input the program still emits the
page-fault-rate line, computed (main.c line 216) by dividing fault_count
by address_count with address_count = 0 — so a division by zero IS
performed (in float arithmetic, giving 0.0f/0.0f = NaN on IEEE-754
implementations, printed as nan), contradicting the claim that the run
reports the rate "rather than performing a division by zero". -/
theorem C6_counterexample :
    OutputLine.pageFaultRate 0 0 ∈ programOutput (fun _ _ => 0) (fun _ => 0) [] := by
  decide

/-- C6 amended: for an empty input the run emits no translation records
and reports zero page faults, and it does not crash (the output is a
well-defined list of lines); however the fault-rate line is produced by
unconditionally computing fault_count / address_count with
address_count = 0, a floating point division by zero whose result is NaN
on IEEE-754 implementations, not a guarded "no addresses" value. -/
theorem C6_empty_input_behavior (bs : Nat → Nat → Int) (mem0 : Nat → Int) :
    (map_addresses bs mem0 []).records = [] ∧
    (map_addresses bs mem0 []).fault_count = 0 ∧
    programOutput bs mem0 [] = [OutputLine.pageFaults 0, OutputLine.pageFaultRate 0 0] :=
  ⟨rfl, rfl, rfl⟩

/-- C8: the input address 16916 decodes to page_number 66 and page_offset
20 (main.c lines 253-255); processed in any state in which page 66 is
unmapped it faults, incrementing fault_count and receiving the
allocator's next frame value; the emitted physical address is
frame_number * 256 + 20 and the emitted value is byte 20 of page 66 of
the backing store; in the freshly created state the allocator's next
value is 0. -/
theorem C8_scenario_16916 (bs : Nat → Nat → Int) (mem0 : Nat → Int) (st : MMState)
    (hm : st.map (decodeVA 16916).page_number = none) :
    (decodeVA 16916).page_number = 66 ∧
    (decodeVA 16916).page_offset = 20 ∧
    (stepRecord bs st (decodeVA 16916)).fault = true ∧
    (step bs st (decodeVA 16916)).fault_count = st.fault_count + 1 ∧
    (stepRecord bs st (decodeVA 16916)).frame = st.next_available_frame_index ∧
    (stepRecord bs st (decodeVA 16916)).physicalAddr =
      st.next_available_frame_index * 256 + 20 ∧
    (stepRecord bs st (decodeVA 16916)).value = bs 66 20 ∧
    (initState mem0).next_available_frame_index = 0 := by
  have hpage : (decodeVA 16916).page_number = 66 := by decide
  have hoff : (decodeVA 16916).page_offset = 20 := by decide
  refine ⟨hpage, hoff, (stepRecord_fault bs st _ hm).1, ?_, (stepRecord_fault bs st _ hm).2.1,
    ?_, ?_, rfl⟩
  · rw [step_fault_count, hm]; rfl
  · cases hrec : st.map (decodeVA 16916).page_number with
    | some f => rw [hm] at hrec; cases hrec
    | none =>
      simp only [stepRecord, hm, allocate, physicalAddressOf, FRAME_NUMBER_OFFSET_BITS, hoff]
      rw [shiftLeft_lor_eq_add _ 20 (by norm_num)]
  · rw [(stepRecord_fault bs st _ hm).2.2, hpage, hoff]
    unfold loadPage
    simp only [FRAME_SIZE, PAGE_SIZE]
    rw [if_pos (by constructor <;> omega)]
    congr 1
    omega

/-- Witness for C8 in the freshly created state. -/
theorem C8_scenario_16916_witness :
    (initState (fun _ => (0 : Int))).map (decodeVA 16916).page_number = none ∧
    ((decodeVA 16916).page_number = 66 ∧
     (decodeVA 16916).page_offset = 20 ∧
     (stepRecord (fun p i => (p * 1000 + i : Int)) (initState (fun _ => (0 : Int)))
        (decodeVA 16916)).fault = true ∧
     (step (fun p i => (p * 1000 + i : Int)) (initState (fun _ => (0 : Int)))
        (decodeVA 16916)).fault_count = (initState (fun _ => (0 : Int))).fault_count + 1 ∧
     (stepRecord (fun p i => (p * 1000 + i : Int)) (initState (fun _ => (0 : Int)))
        (decodeVA 16916)).frame = (initState (fun _ => (0 : Int))).next_available_frame_index ∧
     (stepRecord (fun p i => (p * 1000 + i : Int)) (initState (fun _ => (0 : Int)))
        (decodeVA 16916)).physicalAddr =
       (initState (fun _ => (0 : Int))).next_available_frame_index * 256 + 20 ∧
     (stepRecord (fun p i => (p * 1000 + i : Int)) (initState (fun _ => (0 : Int)))
        (decodeVA 16916)).value = (fun p i => (p * 1000 + i : Int)) 66 20 ∧
     (initState (fun _ => (0 : Int))).next_available_frame_index = 0) :=
  ⟨rfl, C8_scenario_16916 (fun p i => (p * 1000 + i : Int)) (fun _ => (0 : Int))
    (initState (fun _ => (0 : Int))) rfl⟩

/-- The character loop of create_virtual_memory emits nothing for a chunk
of input containing no newline. -/
theorem parseLines_no_newline : ∀ (tail : List Char), '\n' ∉ tail →
    ∀ buf : List Char, parseLines buf tail = []
  | [], _, _ => rfl
  | c :: cs, h, buf => by
    have hc : ¬ c = '\n' := fun hc => h (hc ▸ List.mem_cons_self c cs)
    simp only [parseLines, if_neg hc]
    exact parseLines_no_newline cs (fun hm => h (List.mem_cons_of_mem c hm)) (buf ++ [c])

/-- Appending a newline-free chunk to the input does not change the
parsed integers. -/
theorem parseLines_append (tail : List Char) (h : '\n' ∉ tail) :
    ∀ (input : List Char) (buf : List Char),
      parseLines buf (input ++ tail) = parseLines buf input := by
  intro input
  induction input with
  | nil =>
    intro buf
    rw [List.nil_append, parseLines_no_newline tail h buf]
    rfl
  | cons c cs ih =>
    intro buf
    by_cases hc : c = '\n'
    · simp only [List.cons_append, parseLines, if_pos hc, List.append_eq]
      rw [ih []]
    · simp only [List.cons_append, parseLines, if_neg hc, List.append_eq]
      rw [ih (buf ++ [c])]

/-- C9: an input line not terminated by a newline produces no logical
address: create_virtual_memory (main.c lines 238-268) only creates a
VirtualAddress when it reads a newline character, so a trailing chunk
without a newline is silently dropped and contributes neither to the
address count nor to any translation record of the subsequent run. -/
theorem C9_trailing_line_dropped (input tail : List Char) (h : '\n' ∉ tail) :
    create_virtual_memory (input ++ tail) = create_virtual_memory input ∧
    (create_virtual_memory (input ++ tail)).length = (create_virtual_memory input).length ∧
    ∀ (bs : Nat → Nat → Int) (mem0 : Nat → Int),
      (map_addresses bs mem0 (create_virtual_memory (input ++ tail))).records =
        (map_addresses bs mem0 (create_virtual_memory input)).records := by
  have heq : create_virtual_memory (input ++ tail) = create_virtual_memory input := by
    unfold create_virtual_memory
    rw [parseLines_append tail h input []]
  exact ⟨heq, by rw [heq], fun bs mem0 => by rw [heq]⟩

/-- Witness for C9: input "7\n" followed by the unterminated chunk "42". -/
theorem C9_trailing_line_dropped_witness :
    '\n' ∉ ['4', '2'] ∧
    (create_virtual_memory (['7', '\n'] ++ ['4', '2']) = create_virtual_memory ['7', '\n'] ∧
     (create_virtual_memory (['7', '\n'] ++ ['4', '2'])).length =
       (create_virtual_memory ['7', '\n']).length ∧
     ∀ (bs : Nat → Nat → Int) (mem0 : Nat → Int),
       (map_addresses bs mem0 (create_virtual_memory (['7', '\n'] ++ ['4', '2']))).records =
         (map_addresses bs mem0 (create_virtual_memory ['7', '\n'])).records) :=
  ⟨by decide, C9_trailing_line_dropped ['7', '\n'] ['4', '2'] (by decide)⟩

set_option maxRecDepth 20000 in
/-- C5 counterexample: the next-frame counter is an unsigned char (main.c
line 62), so after 256 allocations it wraps to 0.  Iterating the
allocation of main.c lines 170-173 257 times from the initial state, the
257th allocation returns frame 0 — which lies INSIDE the valid range
[0, FRAME_COUNT) and equals the frame returned by the 1st allocation, so
the allocator both reuses a frame number and never yields an out-of-range
frame, contrary to the claim. -/
theorem C5_counterexample :
    (allocFrames 257 (initState (fun _ => 0)))[256]? = some 0 ∧
    (allocFrames 257 (initState (fun _ => 0)))[0]? = some 0 ∧
    (0 : Nat) < 256 := by
  decide

/-- C5 amended: within a run all of whose page numbers lie in
[0, PAGE_TABLE_SIZE) the allocator never reuses a frame number (at most
256 faults can occur), and every frame number handed out is inside
[0, FRAME_COUNT); past 256 allocations the 8-bit counter wraps to 0 and
reuses frames rather than producing out-of-range physical addresses. -/
theorem C5_no_reuse_within_run (bs : Nat → Nat → Int) (mem0 : Nat → Int)
    (addrs : List VirtualAddress)
    (hval : ∀ va ∈ addrs, va.page_number < PAGE_TABLE_SIZE ∧ va.page_offset < PAGE_SIZE) :
    (((map_addresses bs mem0 addrs).records.filter (fun r => r.fault)).map
      (fun r => r.frame)).Nodup ∧
    (∀ r ∈ (map_addresses bs mem0 addrs).records, r.frame < FRAME_SIZE) := by
  have hrecs : (map_addresses bs mem0 addrs).records = stepsRecords bs (initState mem0) addrs := by
    unfold map_addresses
    rw [runFrom_records]
    rfl
  constructor
  · rw [hrecs]
    rw [fault_frames_range' bs addrs (initState mem0) (runInv_init bs mem0)
      (fun va hva => (hval va hva).1)]
    exact List.nodup_range' _ _ 1 Nat.one_pos
  · intro r hr
    rw [hrecs] at hr
    exact (stepsRecords_bounds bs addrs (initState mem0) (runInv_init bs mem0) hval r hr).1

/-- Witness for the amended C5. -/
theorem C5_no_reuse_within_run_witness :
    (∀ va ∈ [decodeVA 20, decodeVA 300], va.page_number < PAGE_TABLE_SIZE ∧
      va.page_offset < PAGE_SIZE) ∧
    ((((map_addresses (fun p i => (p * 1000 + i : Int)) (fun _ => (0 : Int))
          [decodeVA 20, decodeVA 300]).records.filter (fun r => r.fault)).map
        (fun r => r.frame)).Nodup ∧
     (∀ r ∈ (map_addresses (fun p i => (p * 1000 + i : Int)) (fun _ => (0 : Int))
          [decodeVA 20, decodeVA 300]).records, r.frame < FRAME_SIZE)) :=
  ⟨by decide, C5_no_reuse_within_run (fun p i => (p * 1000 + i : Int)) (fun _ => (0 : Int))
    [decodeVA 20, decodeVA 300] (by decide)⟩

/-- C4: in a run whose page numbers lie in [0, PAGE_TABLE_SIZE), the
frame_number values handed to successive distinct faulted pages are
exactly 0, 1, 2, ... in order: the k-th fault (counting from zero)
receives frame k, a sequence strictly increasing from 0. -/
theorem C4_monotonic_frame_allocation (bs : Nat → Nat → Int) (mem0 : Nat → Int)
    (addrs : List VirtualAddress)
    (hval : ∀ va ∈ addrs, va.page_number < PAGE_TABLE_SIZE) :
    ((map_addresses bs mem0 addrs).records.filter (fun r => r.fault)).map (fun r => r.frame)
      = List.range (map_addresses bs mem0 addrs).fault_count := by
  have hrecs : (map_addresses bs mem0 addrs).records = stepsRecords bs (initState mem0) addrs := by
    unfold map_addresses
    rw [runFrom_records]
    rfl
  rw [hrecs]
  rw [fault_frames_range' bs addrs (initState mem0) (runInv_init bs mem0) hval]
  rw [List.range_eq_range']
  rfl

/-- Witness for C4. -/
theorem C4_monotonic_frame_allocation_witness :
    (∀ va ∈ [decodeVA 20, decodeVA 300, decodeVA 30], va.page_number < PAGE_TABLE_SIZE) ∧
    ((map_addresses (fun p i => (p * 1000 + i : Int)) (fun _ => (0 : Int))
        [decodeVA 20, decodeVA 300, decodeVA 30]).records.filter (fun r => r.fault)).map
        (fun r => r.frame)
      = List.range (map_addresses (fun p i => (p * 1000 + i : Int)) (fun _ => (0 : Int))
        [decodeVA 20, decodeVA 300, decodeVA 30]).fault_count :=
  ⟨by decide, C4_monotonic_frame_allocation (fun p i => (p * 1000 + i : Int))
    (fun _ => (0 : Int)) [decodeVA 20, decodeVA 300, decodeVA 30] (by decide)⟩

/-- C7: at the end of a run whose page numbers lie in
[0, PAGE_TABLE_SIZE), fault_count is at most the number of distinct page
numbers among the processed addresses, which is at most the number of
processed addresses. -/
theorem C7_fault_accounting (bs : Nat → Nat → Int) (mem0 : Nat → Int)
    (addrs : List VirtualAddress)
    (hval : ∀ va ∈ addrs, va.page_number < PAGE_TABLE_SIZE) :
    (map_addresses bs mem0 addrs).fault_count ≤
      (addrs.map (fun va => va.page_number)).dedup.length ∧
    (addrs.map (fun va => va.page_number)).dedup.length ≤ addrs.length := by
  constructor
  · have hInv : RunInv bs (map_addresses bs mem0 addrs) :=
      runInv_runFrom bs addrs (initState mem0) (runInv_init bs mem0) hval
    rcases hInv with ⟨_, _, _, h4, _⟩
    rw [← h4]
    have hsub : (Finset.range 256).filter
        (fun q => (((map_addresses bs mem0 addrs).map q).isSome = true))
        ⊆ (addrs.map (fun va => va.page_number)).toFinset := by
      intro q hq
      rw [Finset.mem_filter] at hq
      have hne : (map_addresses bs mem0 addrs).map q ≠ none := by
        intro hc
        rw [hc] at hq
        simp at hq
      rcases runFrom_mapped_mem bs addrs (initState mem0) q hne with h | h
      · exact absurd rfl h
      · exact List.mem_toFinset.mpr h
    calc ((Finset.range 256).filter
          (fun q => (((map_addresses bs mem0 addrs).map q).isSome = true))).card
        ≤ (addrs.map (fun va => va.page_number)).toFinset.card := Finset.card_le_card hsub
      _ = (addrs.map (fun va => va.page_number)).dedup.length :=
          List.card_toFinset _
  · calc (addrs.map (fun va => va.page_number)).dedup.length
        ≤ (addrs.map (fun va => va.page_number)).length :=
          (List.dedup_sublist _).length_le
      _ = addrs.length := List.length_map _ _

/-- Witness for C7. -/
theorem C7_fault_accounting_witness :
    (∀ va ∈ [decodeVA 20, decodeVA 300, decodeVA 30], va.page_number < PAGE_TABLE_SIZE) ∧
    ((map_addresses (fun p i => (p * 1000 + i : Int)) (fun _ => (0 : Int))
        [decodeVA 20, decodeVA 300, decodeVA 30]).fault_count ≤
      (([decodeVA 20, decodeVA 300, decodeVA 30].map (fun va => va.page_number))).dedup.length ∧
     (([decodeVA 20, decodeVA 300, decodeVA 30].map (fun va => va.page_number))).dedup.length ≤
      ([decodeVA 20, decodeVA 300, decodeVA 30] : List VirtualAddress).length) :=
  ⟨by decide, C7_fault_accounting (fun p i => (p * 1000 + i : Int)) (fun _ => (0 : Int))
    [decodeVA 20, decodeVA 300, decodeVA 30] (by decide)⟩

/-- C10: in a run whose raw input addresses all lie in [0, 65536), every
index used to read or write the physical memory byte array lies in
[0, PHYSICAL_MEMORY_SIZE): frame numbers stay in [0, 256) because the
next-available-frame counter is an 8-bit unsigned value wrapping modulo
256, and frame offsets stay in [0, 256) because they are masked with
255. -/
theorem C10_space_accesses_in_bounds (bs : Nat → Nat → Int) (mem0 : Nat → Int)
    (raws : List Nat) (hval : ∀ r ∈ raws, r < PHYSICAL_MEMORY_SIZE) :
    ∀ a ∈ (map_addresses bs mem0 (raws.map decodeVA)).accesses, a < PHYSICAL_MEMORY_SIZE := by
  intro a ha
  have hval' : ∀ va ∈ raws.map decodeVA, va.page_number < 256 ∧ va.page_offset < 256 := by
    intro va hva
    rcases List.mem_map.mp hva with ⟨r, hr, rfl⟩
    have hrlt : r < 65536 := hval r hr
    exact ⟨decodeVA_page_number_lt r hrlt, decodeVA_page_offset_lt r⟩
  rcases runFrom_accesses_lt bs (raws.map decodeVA) (initState mem0) (runInv_init bs mem0)
      hval' a ha with h | h
  · simp [initState] at h
  · exact h

/-- Witness for C10. -/
theorem C10_space_accesses_in_bounds_witness :
    (∀ r ∈ [16916, 300], r < PHYSICAL_MEMORY_SIZE) ∧
    ∀ a ∈ (map_addresses (fun p i => (p * 1000 + i : Int)) (fun _ => (0 : Int))
        ([16916, 300].map decodeVA)).accesses, a < PHYSICAL_MEMORY_SIZE :=
  ⟨by decide, C10_space_accesses_in_bounds (fun p i => (p * 1000 + i : Int))
    (fun _ => (0 : Int)) [16916, 300] (by decide)⟩

/-- C3: every address that takes the hit path (its page already mapped)
reports as byte_value the byte at its page_offset within the page block
loaded from the backing store for that page_number.  Pages are loaded for
a page number only at its (unique) fault, and within a valid run frames
are never overwritten, so the block most recently loaded for that
page_number is exactly the backing store page bs page. -/
theorem C3_hit_byte_fidelity (bs : Nat → Nat → Int) (mem0 : Nat → Int)
    (addrs : List VirtualAddress)
    (hval : ∀ va ∈ addrs, va.page_number < PAGE_TABLE_SIZE ∧ va.page_offset < PAGE_SIZE)
    (j : Nat) (r : TranslationRecord)
    (hr : (map_addresses bs mem0 addrs).records[j]? = some r)
    (hhit : r.fault = false) :
    r.value = bs r.page r.offset := by
  rw [map_addresses_records_getElem?] at hr
  cases haj : addrs[j]? with
  | none => rw [haj] at hr; cases hr
  | some a =>
    rw [haj, Option.map_some'] at hr
    have hamem : a ∈ addrs := List.getElem?_mem haj
    have hr' := Option.some.inj hr
    subst hr'
    have hvalt : ∀ va ∈ addrs.take j, va.page_number < 256 :=
      fun va hva => (hval va (List.take_subset j addrs hva)).1
    have hInvS : RunInv bs (map_addresses bs mem0 (addrs.take j)) :=
      runInv_runFrom bs (addrs.take j) (initState mem0) (runInv_init bs mem0) hvalt
    cases hm : (map_addresses bs mem0 (addrs.take j)).map a.page_number with
    | none =>
      have hf := (stepRecord_fault bs _ a hm).1
      rw [hf] at hhit
      cases hhit
    | some f =>
      rcases stepRecord_hit bs _ a f hm with ⟨_, _, hv⟩
      rw [stepRecord_page, stepRecord_offset, hv]
      rcases hInvS with ⟨_, _, _, _, h5⟩
      have hoff : a.page_offset < 256 := (hval a hamem).2
      have hb := h5 a.page_number f hm a.page_offset hoff
      rw [← hb]
      congr 1
      simp only [PAGE_SIZE]
      omega

/-- Witness for C3: the second address of the run hits page 0. -/
theorem C3_hit_byte_fidelity_witness :
    (∀ va ∈ [decodeVA 20, decodeVA 10], va.page_number < PAGE_TABLE_SIZE ∧
      va.page_offset < PAGE_SIZE) ∧
    (map_addresses (fun p i => (p * 1000 + i : Int)) (fun _ => (0 : Int))
        [decodeVA 20, decodeVA 10]).records[1]? =
      some ⟨10, 10, 10, 0, 10, 0, false⟩ ∧
    (⟨10, 10, 10, 0, 10, 0, false⟩ : TranslationRecord).fault = false ∧
    (⟨10, 10, 10, 0, 10, 0, false⟩ : TranslationRecord).value =
      (fun p i => (p * 1000 + i : Int)) (⟨10, 10, 10, 0, 10, 0, false⟩ : TranslationRecord).page
        (⟨10, 10, 10, 0, 10, 0, false⟩ : TranslationRecord).offset :=
  ⟨by decide, by decide, rfl,
    C3_hit_byte_fidelity (fun p i => (p * 1000 + i : Int)) (fun _ => (0 : Int))
      [decodeVA 20, decodeVA 10] (by decide) 1 ⟨10, 10, 10, 0, 10, 0, false⟩ (by decide) rfl⟩

/-- C1: for every run, a later address referencing an already-referenced
page_number takes the hit path (its record reports no fault, so it does
not increment fault_count) and is translated with the same frame_number
as every earlier reference to that page, in particular the first one,
which installed it; an address whose page was never referenced before
does fault; and a page-table entry, once installed in a prefix of the
run, is still present unchanged after any longer prefix. -/
theorem C1_repeated_page (bs : Nat → Nat → Int) (mem0 : Nat → Int)
    (addrs : List VirtualAddress) (i j : Nat) (ri rj : TranslationRecord)
    (hij : i < j)
    (hi : (map_addresses bs mem0 addrs).records[i]? = some ri)
    (hj : (map_addresses bs mem0 addrs).records[j]? = some rj)
    (hpage : ri.page = rj.page) :
    rj.fault = false ∧
    rj.frame = ri.frame ∧
    ((∀ k rk, k < i → (map_addresses bs mem0 addrs).records[k]? = some rk →
        rk.page ≠ ri.page) → ri.fault = true) ∧
    (∀ p f m n, m ≤ n →
      (map_addresses bs mem0 (addrs.take m)).map p = some f →
      (map_addresses bs mem0 (addrs.take n)).map p = some f) := by
  have hstab : ∀ p f m n, m ≤ n →
      (map_addresses bs mem0 (addrs.take m)).map p = some f →
      (map_addresses bs mem0 (addrs.take n)).map p = some f := by
    intro p f m n hmn hp
    unfold map_addresses at hp ⊢
    rw [runFrom_take_le bs (initState mem0) addrs m n hmn]
    exact runFrom_map_stable bs _ _ p f hp
  rw [map_addresses_records_getElem?] at hi hj
  cases hai : addrs[i]? with
  | none => rw [hai] at hi; cases hi
  | some a =>
    cases haj : addrs[j]? with
    | none => rw [haj] at hj; cases hj
    | some b =>
      rw [hai, Option.map_some'] at hi
      rw [haj, Option.map_some'] at hj
      have hi' := Option.some.inj hi
      have hj' := Option.some.inj hj
      have hpa : ri.page = a.page_number := by
        rw [← hi']; exact stepRecord_page _ _ _
      have hpb : rj.page = b.page_number := by
        rw [← hj']; exact stepRecord_page _ _ _
      have hba : b.page_number = a.page_number := by rw [← hpb, ← hpage, hpa]
      have hstep : map_addresses bs mem0 (addrs.take (i + 1)) =
          step bs (map_addresses bs mem0 (addrs.take i)) a := by
        unfold map_addresses
        exact runFrom_take_succ bs (initState mem0) addrs i a hai
      have hmap1 : (map_addresses bs mem0 (addrs.take (i + 1))).map a.page_number =
          some ri.frame := by
        rw [hstep]
        have hlk := step_map_lookup bs (map_addresses bs mem0 (addrs.take i)) a
        rw [hi'] at hlk
        exact hlk
      have hmapj : (map_addresses bs mem0 (addrs.take j)).map a.page_number =
          some ri.frame := hstab a.page_number ri.frame (i + 1) j hij hmap1
      have hmb : (map_addresses bs mem0 (addrs.take j)).map b.page_number =
          some ri.frame := by rw [hba]; exact hmapj
      rcases stepRecord_hit bs (map_addresses bs mem0 (addrs.take j)) b ri.frame hmb
        with ⟨hf, hfr, _⟩
      refine ⟨by rw [← hj']; exact hf, by rw [← hj']; exact hfr, ?_, hstab⟩
      intro hfirst
      have hnone : (map_addresses bs mem0 (addrs.take i)).map a.page_number = none := by
        unfold map_addresses
        apply runFrom_map_none
        · rfl
        · intro va hva
          rcases List.mem_iff_getElem?.mp hva with ⟨k, hk⟩
          have hklen : k < (addrs.take i).length := (List.getElem?_eq_some.mp hk).1
          have hki : k < i := lt_of_lt_of_le hklen (by
            rw [List.length_take]; exact Nat.min_le_left i addrs.length)
          have hak : addrs[k]? = some va := by
            rw [← hk, List.getElem?_take, if_pos hki]
          have hrk : (map_addresses bs mem0 addrs).records[k]? =
              some (stepRecord bs (map_addresses bs mem0 (addrs.take k)) va) := by
            rw [map_addresses_records_getElem?, hak, Option.map_some']
          have hne := hfirst k _ hki hrk
          rw [stepRecord_page] at hne
          rw [hpa] at hne
          exact hne
      rw [← hi']
      exact (stepRecord_fault bs _ a hnone).1

/-- Witness for C1: the two addresses 20 and 10 both reference page 0. -/
theorem C1_repeated_page_witness :
    0 < 1 ∧
    (map_addresses (fun p i => (p * 1000 + i : Int)) (fun _ => (0 : Int))
        [decodeVA 20, decodeVA 10]).records[0]? = some ⟨20, 20, 20, 0, 20, 0, true⟩ ∧
    (map_addresses (fun p i => (p * 1000 + i : Int)) (fun _ => (0 : Int))
        [decodeVA 20, decodeVA 10]).records[1]? = some ⟨10, 10, 10, 0, 10, 0, false⟩ ∧
    (⟨20, 20, 20, 0, 20, 0, true⟩ : TranslationRecord).page =
      (⟨10, 10, 10, 0, 10, 0, false⟩ : TranslationRecord).page ∧
    ((⟨10, 10, 10, 0, 10, 0, false⟩ : TranslationRecord).fault = false ∧
     (⟨10, 10, 10, 0, 10, 0, false⟩ : TranslationRecord).frame =
       (⟨20, 20, 20, 0, 20, 0, true⟩ : TranslationRecord).frame ∧
     ((∀ k rk, k < 0 →
         (map_addresses (fun p i => (p * 1000 + i : Int)) (fun _ => (0 : Int))
           [decodeVA 20, decodeVA 10]).records[k]? = some rk →
         rk.page ≠ (⟨20, 20, 20, 0, 20, 0, true⟩ : TranslationRecord).page) →
       (⟨20, 20, 20, 0, 20, 0, true⟩ : TranslationRecord).fault = true) ∧
     (∀ p f m n, m ≤ n →
       (map_addresses (fun p i => (p * 1000 + i : Int)) (fun _ => (0 : Int))
         ([decodeVA 20, decodeVA 10].take m)).map p = some f →
       (map_addresses (fun p i => (p * 1000 + i : Int)) (fun _ => (0 : Int))
         ([decodeVA 20, decodeVA 10].take n)).map p = some f)) :=
  ⟨by decide, by decide, by decide, rfl,
    C1_repeated_page (fun p i => (p * 1000 + i : Int)) (fun _ => (0 : Int))
      [decodeVA 20, decodeVA 10] 0 1 ⟨20, 20, 20, 0, 20, 0, true⟩
      ⟨10, 10, 10, 0, 10, 0, false⟩ (by decide) (by decide) (by decide) rfl⟩
